import Mathlib

/-!
Shallow embedding of the crawl-orchestration engine of the AI website
scanner (App component): the link/asset frontier and its status state
machine, the tool-call dispatch-and-approval protocol, the streamed
response accumulation rule, and the cancellable bulk-scan loop.

Maps (`Map<string, _>` in the source) are modelled as insertion-ordered
association lists; `mapGet`/`mapSet` mirror `Map.prototype.get`/`set`
(set replaces in place on an existing key, appends on a new key).
JavaScript object spread (`{ ...a, ...b }`, with `undefined` fields
absent and spreading `undefined` a no-op) is modelled with `Option`
fields and `applyPatch`.  Asynchronous execution is sequentialised at
await granularity; the bulk-scan abort signal is a predicate giving the
value of `signal.aborted` at the cooperative check of each iteration.
`events` and `collabLog` are ghost history fields recording exactly the
status writes and collaborator invocations the source performs.
-/

inductive AppStatus where
  | input
  | scanning
  | chat
  deriving DecidableEq

inductive LinkStatus where
  | pending
  | scanning
  | scanned
  | failed
  deriving DecidableEq

/-- A `DiscoveredLink` record; every field other than `status` may be
absent (JS `undefined`), which matters because `updateLinkStatus` can
construct a record from a spread of `undefined`. -/
structure DiscoveredLink where
  url : Option String
  status : LinkStatus
  title : Option String
  textContent : Option String
  htmlContent : Option String
  deriving DecidableEq

/-- A `Partial<DiscoveredLink>` as passed to `updateLinkStatus`. -/
structure LinkPatch where
  url : Option String := none
  status : Option LinkStatus := none
  title : Option String := none
  textContent : Option String := none
  htmlContent : Option String := none
  deriving DecidableEq

inductive AssetType where
  | image
  | pdf
  | video
  deriving DecidableEq

structure DiscoveredAsset where
  url : String
  assetType : AssetType
  sourcePage : String
  deriving DecidableEq

/-- Result of one `scanPage` collaborator call. -/
structure ScanResult where
  title : String
  textContent : String
  htmlContent : String
  links : List String
  assets : List DiscoveredAsset
  deriving DecidableEq

inductive ScanOutcome where
  | ok (r : ScanResult)
  | err (msg : String)
  deriving DecidableEq

abbrev ScanOracle := String → ScanOutcome

/-- `Map.prototype.get`. -/
def mapGet {α : Type} (m : List (String × α)) (k : String) : Option α :=
  match m with
  | [] => none
  | p :: rest => if p.1 = k then some p.2 else mapGet rest k

/-- `Map.prototype.set`: replace in place on an existing key, append on
a new key. -/
def mapSet {α : Type} (m : List (String × α)) (k : String) (v : α) :
    List (String × α) :=
  match m with
  | [] => [(k, v)]
  | p :: rest => if p.1 = k then (k, v) :: rest else p :: mapSet rest k v

/-- JS object spread `{ ...base, ...p }`: fields present in the patch
win, absent patch fields keep the base value. -/
def applyPatch (base : DiscoveredLink) (p : LinkPatch) : DiscoveredLink :=
  { url := p.url <|> base.url
    status := p.status.getD base.status
    title := p.title <|> base.title
    textContent := p.textContent <|> base.textContent
    htmlContent := p.htmlContent <|> base.htmlContent }

/-- `updateLinkStatus` (part_000 lines 36-38):
`setDiscoveredLinks(prev => new Map(prev).set(url, { ...prev.get(url)!, status, ...data }))`.
When the URL is absent, `prev.get(url)` is `undefined` and spreading it
is a no-op, so the written object is `{ status, ...data }`. -/
def updateLinkStatus (links : List (String × DiscoveredLink)) (url : String)
    (status : LinkStatus) (data : LinkPatch) : List (String × DiscoveredLink) :=
  let base : DiscoveredLink :=
    match mapGet links url with
    | some l => l
    | none =>
      { url := none, status := status, title := none
        textContent := none, htmlContent := none }
  mapSet links url (applyPatch { base with status := status } data)

/-- The record inserted for a newly discovered link:
`{ url: linkUrl, status: 'pending', title: 'Unknown Title' }`. -/
def pendingLink (u : String) : DiscoveredLink :=
  { url := some u, status := .pending, title := some "Unknown Title"
    textContent := none, htmlContent := none }

/-- Ghost record of one status write to the link map: the URL written,
the status the record had before the write (none on creation), and the
status stored by the write. -/
structure StatusEvent where
  url : String
  prev : Option LinkStatus
  next : LinkStatus
  deriving DecidableEq

/-- Ghost record of one collaborator invocation. -/
inductive CollabCall where
  | scanPage (url : String)
  | extractStructuredData (markup dataType : String)
  | analyzeSeo (markup : String)
  | fetchImage (url : String)
  deriving DecidableEq

/-- The orchestrator state: `status`, `error`, `discoveredLinks`,
`discoveredAssets`, plus the two ghost history fields. -/
structure AppState where
  status : AppStatus
  error : Option String
  links : List (String × DiscoveredLink)
  assets : List (String × DiscoveredAsset)
  events : List StatusEvent
  collabLog : List CollabCall
  deriving DecidableEq

def initialState : AppState :=
  { status := .input, error := none, links := [], assets := []
    events := [], collabLog := [] }

/-- `updateLinkStatus` lifted to the orchestrator state, logging the
status write it performs. -/
def updateLinkStatusS (st : AppState) (url : String) (status : LinkStatus)
    (data : LinkPatch) : AppState :=
  { st with
    links := updateLinkStatus st.links url status data
    events := st.events ++
      [{ url := url, prev := (mapGet st.links url).map DiscoveredLink.status
         next := data.status.getD status }] }

/-- One step of link registration:
`if (!prev.has(linkUrl)) set(linkUrl, { url, status: 'pending', title: 'Unknown Title' })`. -/
def registerLinkStep (s : AppState) (linkUrl : String) : AppState :=
  if (mapGet s.links linkUrl).isSome then s
  else
    { s with
      links := s.links ++ [(linkUrl, pendingLink linkUrl)]
      events := s.events ++ [{ url := linkUrl, prev := none, next := .pending }] }

/-- Registration of discovered outbound links (part_000 lines 111-115,
155-162, 256-263): for each URL, insert a fresh `pending` record only
if the URL is not already a key of the link map. -/
def registerDiscoveredLinks (st : AppState) (urls : List String) : AppState :=
  urls.foldl registerLinkStep st

/-- One step of asset registration: `if (!newMap.has(asset.url)) newMap.set(asset.url, asset)`. -/
def addAssetStep (m : List (String × DiscoveredAsset)) (asset : DiscoveredAsset) :
    List (String × DiscoveredAsset) :=
  if (mapGet m asset.url).isSome then m else m ++ [(asset.url, asset)]

/-- `addDiscoveredAssets` (part_000 lines 40-50): insert each asset
keyed by its URL only if the URL is not already present
(first-write-wins). -/
def addDiscoveredAssets (st : AppState) (assets : List DiscoveredAsset) : AppState :=
  { st with assets := assets.foldl addAssetStep st.assets }

/-! ### Map lemmas -/

theorem mapGet_mapSet_self {α : Type} (m : List (String × α)) (k : String) (v : α) :
    mapGet (mapSet m k v) k = some v := by
  induction m with
  | nil => simp [mapGet, mapSet]
  | cons p rest ih =>
    by_cases h : p.1 = k
    · simp [mapSet, h, mapGet]
    · simp [mapSet, h, mapGet, ih]

theorem mapGet_mapSet_ne {α : Type} (m : List (String × α)) (k k' : String) (v : α)
    (h : k' ≠ k) : mapGet (mapSet m k v) k' = mapGet m k' := by
  have hne : ¬ k = k' := fun hh => h hh.symm
  induction m with
  | nil => simp [mapGet, mapSet, hne]
  | cons p rest ih =>
    by_cases hp : p.1 = k
    · have hpk' : ¬ p.1 = k' := by rw [hp]; exact hne
      simp [mapSet, hp, mapGet, hpk', hne]
    · by_cases hp' : p.1 = k'
      · simp [mapSet, hp, mapGet, hp', h, hne]
      · simp [mapSet, hp, mapGet, hp', ih]

theorem mapGet_append {α : Type} (m₁ m₂ : List (String × α)) (k : String) :
    mapGet (m₁ ++ m₂) k =
      (match mapGet m₁ k with
       | some v => some v
       | none => mapGet m₂ k) := by
  induction m₁ with
  | nil => simp [mapGet]
  | cons p rest ih =>
    by_cases h : p.1 = k
    · simp [mapGet, h]
    · simp [mapGet, h, ih]

theorem mapSet_of_get_none {α : Type} (m : List (String × α)) (k : String) (v : α)
    (h : mapGet m k = none) : mapSet m k v = m ++ [(k, v)] := by
  induction m with
  | nil => simp [mapSet]
  | cons p rest ih =>
    by_cases hp : p.1 = k
    · simp [mapGet, hp] at h
    · simp [mapGet, hp] at h
      simp [mapSet, hp, ih h]

/-! ### Stream accumulation (`processStreamAndAddMessages`, part_000 lines 52-96) -/

/-- An argument bag for a planner tool call; the SDK delivers untyped
`args`, of which the dispatcher reads `urls`, `url`, `dataType`, `prompt`. -/
structure FunctionCallArgs where
  urls : List String := []
  url : String := ""
  dataType : String := ""
  prompt : String := ""
  deriving DecidableEq

structure FunctionCall where
  name : String
  args : FunctionCallArgs
  deriving DecidableEq

/-- One part of a streamed response chunk; `text` is absent on
non-text parts. -/
structure ContentPart where
  text : Option String
  deriving DecidableEq

/-- One streamed response chunk: the text parts of its first candidate
(empty when candidates/content/parts are missing), and the SDK
`functionCalls` accessor, `none` when the chunk carries no tool calls. -/
structure Chunk where
  parts : List ContentPart
  functionCalls : Option (List FunctionCall)
  deriving DecidableEq

inductive Sender where
  | user
  | bot
  deriving DecidableEq

/-- A transcript turn (a `ChatMessage` without its random id).  A
tool-call proposal carries `accumulatedFunctionCalls[0]`, which is
absent when the captured list is empty. -/
inductive ChatMessage where
  | text (text : String) (sender : Sender)
  | functionCall (functionCall : Option FunctionCall)
  deriving DecidableEq

/-- One step of the text accumulator: `if (part.text) accumulatedText += part.text`. -/
def accumTextPart (a : String) (p : ContentPart) : String :=
  match p.text with
  | some t => if t ≠ "" then a ++ t else a
  | none => a

def accumTextChunk (a : String) (c : Chunk) : String :=
  c.parts.foldl accumTextPart a

/-- The text accumulator: for each chunk, each part with truthy
(non-empty) `text` is appended in order. -/
def accumulateText (chunks : List Chunk) : String :=
  chunks.foldl accumTextChunk ""

/-- One step of the tool-call accumulator:
`if (chunk.functionCalls) accumulatedFunctionCalls = chunk.functionCalls`. -/
def accumCallsChunk (acc : Option (List FunctionCall)) (c : Chunk) :
    Option (List FunctionCall) :=
  match c.functionCalls with
  | some fcs => some fcs
  | none => acc

/-- The tool-call accumulator: each chunk whose `functionCalls` is
present overwrites the previously captured list. -/
def accumulateCalls (chunks : List Chunk) : Option (List FunctionCall) :=
  chunks.foldl accumCallsChunk none

def emptyResponseNotice : String :=
  "I received a response, but it was empty. Can you try rephrasing?"

/-- `processStreamAndAddMessages`: consume the whole stream, then emit a
text turn if the trimmed accumulated text is non-empty, a tool-call
turn carrying the first captured call if a list was captured, and the
fixed empty-response turn if neither happened. -/
def processStreamAndAddMessages (chunks : List Chunk) : List ChatMessage :=
  let trimmedText := (accumulateText chunks).trim
  (if trimmedText ≠ "" then [ChatMessage.text trimmedText .bot] else []) ++
  (match accumulateCalls chunks with
   | some fcs => [ChatMessage.functionCall fcs.head?]
   | none => []) ++
  (if trimmedText = "" ∧ accumulateCalls chunks = none then
    [ChatMessage.text emptyResponseNotice .bot]
   else [])

/-- Specification-side reading of the text rule: the concatenation, in
chunk order, of all textual fragments of all chunks. -/
def chunkTextFragments (c : Chunk) : List String :=
  c.parts.filterMap ContentPart.text

def joinedText (chunks : List Chunk) : String :=
  String.join (chunks.map chunkTextFragments).flatten

/-- Specification-side reading of the tool-call rule: the list carried
by the last chunk that carries one. -/
def lastFunctionCalls (chunks : List Chunk) : Option (List FunctionCall) :=
  (chunks.filterMap Chunk.functionCalls).getLast?

/-! ### Scan executor result handling (`scanPages` fan-out body and the
bulk-scan loop body, part_000 lines 150-169 and 252-268) -/

/-- One scan of one URL: mark it `scanning`, invoke the Scan Executor,
then on success mark it `scanned` merging title/text/markup and
register newly discovered links and assets; on failure mark it
`failed`. -/
def scanOne (st : AppState) (oracle : ScanOracle) (url : String) : AppState :=
  let st1 := updateLinkStatusS st url .scanning {}
  let st1 := { st1 with collabLog := st1.collabLog ++ [CollabCall.scanPage url] }
  match oracle url with
  | .ok r =>
    let st2 := updateLinkStatusS st1 url .scanned
      { textContent := some r.textContent, title := some r.title
        htmlContent := some r.htmlContent }
    let st3 := registerDiscoveredLinks st2 r.links
    addDiscoveredAssets st3 r.assets
  | .err _ => updateLinkStatusS st1 url .failed {}

/-- One entry of the `scanPages` result payload. -/
structure ScanEntry where
  url : String
  success : Bool
  title : String := ""
  content : String := ""
  error : String := ""
  deriving DecidableEq

def scanOneEntry (st : AppState) (oracle : ScanOracle) (url : String) :
    AppState × ScanEntry :=
  (scanOne st oracle url,
   match oracle url with
   | .ok r =>
     { url := url, success := true, title := r.title
       content := r.textContent.take 1000 }
   | .err m => { url := url, success := false, error := m })

/-- The `scanPages` fan-out (sequentialised: each URL owns disjoint
keys, so the per-URL effects agree with the concurrent interleaving),
waiting for every URL to settle and collecting one entry per URL. -/
def dispatchScanPages (st : AppState) (oracle : ScanOracle) (urls : List String) :
    AppState × List ScanEntry :=
  urls.foldl
    (fun acc url =>
      let r := scanOneEntry acc.1 oracle url
      (r.1, acc.2 ++ [r.2]))
    (st, [])

/-- The pending-URL snapshot taken at the start of `handleFullScan`:
`Array.from(discoveredLinks.values()).filter(l => l.status === 'pending').map(l => l.url)`
(the `url` field is present on every record a registration path
creates, so dropping absent ones loses nothing on reachable states). -/
def pendingUrls (st : AppState) : List String :=
  ((st.links.map Prod.snd).filter (fun l => l.status == .pending)).filterMap
    DiscoveredLink.url

/-- The bulk-scan loop: `stop i` is the value of `signal.aborted` at
the cooperative check opening iteration `i`; a true check breaks out
before any further scan starts. -/
def fullScanLoop (oracle : ScanOracle) (stop : Nat → Bool) :
    List String → AppState → Nat → AppState
  | [], st, _ => st
  | url :: rest, st, i =>
    if stop i then st
    else fullScanLoop oracle stop rest (scanOne st oracle url) (i + 1)

/-- `handleFullScan` (part_000 lines 236-271): snapshot the pending
URLs once, then drain them sequentially with the cooperative stop
check at each iteration boundary. -/
def handleFullScan (st : AppState) (oracle : ScanOracle) (stop : Nat → Bool) :
    AppState :=
  fullScanLoop oracle stop (pendingUrls st) st 0

/-! ### Initial scan (`handleInitialScan`, part_000 lines 99-134) -/

/-- `handleInitialScan`: enter the scanning stage, run the seed scan;
on success replace the frontier with the fresh seeded map (seed
`scanned`, discovered links `pending`), register assets and open the
chat session; on failure surface the error and return to the input
stage, leaving the frontier untouched. -/
def handleInitialScan (st : AppState) (url : String) (oracle : ScanOracle) :
    AppState :=
  let st0 := { st with status := AppStatus.scanning, error := none
                       collabLog := st.collabLog ++ [CollabCall.scanPage url] }
  match oracle url with
  | .ok r =>
    let initialLink : DiscoveredLink :=
      { url := some url, status := .scanned, title := some r.title
        textContent := some r.textContent, htmlContent := some r.htmlContent }
    let st1 := { st0 with
                 links := mapSet [] url initialLink
                 events := st0.events ++ [{ url := url, prev := none, next := .scanned }] }
    let st2 := registerDiscoveredLinks st1 r.links
    let st3 := addDiscoveredAssets st2 r.assets
    { st3 with status := AppStatus.chat }
  | .err msg => { st0 with error := some msg, status := AppStatus.input }

/-! ### Tool dispatch (`handleFunctionCallResponse`, part_000 lines 136-226) -/

/-- Structural model of the JSON result payload strings built by the
dispatcher; `empty` is the initial `''` that an unrecognized tool name
leaves untouched. -/
inductive ResultPayload where
  | empty
  | scanResults (entries : List ScanEntry)
  | success (data : String)
  | failure (error : String)
  | imageData (base64Data mimeType prompt : String)
  | ack (message : String)
  deriving DecidableEq

/-- A message sent through the conversation transport. -/
inductive SentMessage where
  | functionResponse (name : String) (result : ResultPayload)
  deriving DecidableEq

/-- The collaborator interfaces consumed by the dispatcher; analyzer
outputs are opaque to the core and modelled as strings. -/
structure Collaborators where
  scanPage : ScanOracle
  extractStructuredData : String → String → String
  analyzeSeo : String → String
  fetchAndEncodeImage : String → Except String (String × String)

def notScannedPayload (url : String) : ResultPayload :=
  .failure ("Page " ++ url ++ " has not been scanned yet. Please use scanPages first.")

def fullScanAck : String :=
  "Full scan initiated. I will provide a summary once a significant number of pages are scanned."

/-- Truthiness of an optional string (`undefined` and `''` are falsy). -/
def truthyStr : Option String → Bool
  | none => false
  | some s => !(s == "")

/-- The `scanned`-with-markup precondition checked by
`extractDataFromPage` and `performSeoAnalysis`:
`linkData?.status === 'scanned' && linkData.htmlContent`. -/
def scannedWithMarkup (st : AppState) (url : String) : Bool :=
  match mapGet st.links url with
  | some linkData => linkData.status == .scanned && truthyStr linkData.htmlContent
  | none => false

/-- Result of one run of `handleFunctionCallResponse`: the state at the
moment the tool result is sent back, the result payload, and the
messages actually sent to the planner. -/
structure DispatchResult where
  state : AppState
  payload : ResultPayload
  sent : List SentMessage

/-- `handleFunctionCallResponse`: a rejected proposal executes nothing
and sends nothing; an approved proposal is dispatched on its name, and
whatever payload was built (still `''` for an unrecognized name) is
sent back as a function response when the chat session exists. -/
def handleFunctionCallResponse (st : AppState) (approved : Bool) (fc : FunctionCall)
    (collab : Collaborators) (stop : Nat → Bool) (hasChat : Bool) : DispatchResult :=
  if !approved then { state := st, payload := .empty, sent := [] }
  else
    let r : AppState × ResultPayload :=
      if fc.name = "scanPages" then
        let res := dispatchScanPages st collab.scanPage fc.args.urls
        (res.1, .scanResults res.2)
      else if fc.name = "extractDataFromPage" then
        match mapGet st.links fc.args.url with
        | some linkData =>
          if linkData.status == .scanned && truthyStr linkData.htmlContent then
            let markup := linkData.htmlContent.getD ""
            ({ st with collabLog :=
                 st.collabLog ++ [CollabCall.extractStructuredData markup fc.args.dataType] },
             .success (collab.extractStructuredData markup fc.args.dataType))
          else (st, notScannedPayload fc.args.url)
        | none => (st, notScannedPayload fc.args.url)
      else if fc.name = "performSeoAnalysis" then
        match mapGet st.links fc.args.url with
        | some linkData =>
          if linkData.status == .scanned && truthyStr linkData.htmlContent then
            let markup := linkData.htmlContent.getD ""
            ({ st with collabLog := st.collabLog ++ [CollabCall.analyzeSeo markup] },
             .success (collab.analyzeSeo markup))
          else (st, notScannedPayload fc.args.url)
        | none => (st, notScannedPayload fc.args.url)
      else if fc.name = "analyzeImageFromUrl" then
        let st1 := { st with collabLog := st.collabLog ++ [CollabCall.fetchImage fc.args.url] }
        match collab.fetchAndEncodeImage fc.args.url with
        | .ok bm => (st1, .imageData bm.1 bm.2 fc.args.prompt)
        | .error msg => (st1, .failure ("Failed to fetch or encode image: " ++ msg))
      else if fc.name = "scanAllPendingPages" then
        (handleFullScan st collab.scanPage stop, .ack fullScanAck)
      else (st, .empty)
    { state := r.1, payload := r.2
      sent := if hasChat then [.functionResponse fc.name r.2] else [] }

/-! ### Session operations and traces -/

/-- One user- or planner-level operation on the session, carrying the
collaborator behaviour it observes.  `manualScan` is the Asset
Explorer re-scan (part_000 line 334), which funnels into an approved
`scanPages` call on one URL. -/
inductive AppOp where
  | initialScan (url : String) (oracle : ScanOracle)
  | toolCall (approved : Bool) (fc : FunctionCall) (collab : Collaborators)
      (stop : Nat → Bool)
  | manualScan (url : String) (collab : Collaborators)
  | fullScan (oracle : ScanOracle) (stop : Nat → Bool)
  | reset

/-- `handleReset` (part_000 lines 280-290); the ghost history fields
are deliberately kept. -/
def handleReset (st : AppState) : AppState :=
  { st with status := AppStatus.input, error := none, links := [], assets := [] }

/-- Run one operation, guarded by the stage in which the UI makes it
reachable (`UrlInput` only at the input stage, chat and Asset Explorer
interactions only at the chat stage). -/
def runOp (st : AppState) (op : AppOp) : AppState :=
  match op with
  | .initialScan url oracle =>
    if st.status = AppStatus.input then handleInitialScan st url oracle else st
  | .toolCall approved fc collab stop =>
    if st.status = AppStatus.chat then
      (handleFunctionCallResponse st approved fc collab stop true).state
    else st
  | .manualScan url collab =>
    if st.status = AppStatus.chat then
      (handleFunctionCallResponse st true
        { name := "scanPages", args := { urls := [url] } } collab (fun _ => false) true).state
    else st
  | .fullScan oracle stop =>
    if st.status = AppStatus.chat then handleFullScan st oracle stop else st
  | .reset => handleReset st

def runTrace (st : AppState) (ops : List AppOp) : AppState :=
  ops.foldl runOp st

/-- The transition edges named by the specification's state machine:
`pending → scanning → {scanned, failed}` with only a `failed` link
re-entering `scanning`; creations (no previous status) are not
transitions. -/
def specAllowed : Option LinkStatus → LinkStatus → Bool
  | none, _ => true
  | some .pending, .scanning => true
  | some .failed, .scanning => true
  | some .scanning, .scanned => true
  | some .scanning, .failed => true
  | some _, _ => false

/-- The transition edges the implementation actually takes: the
specification's edges plus re-entry of a `scanned` link into
`scanning` on a deliberate re-scan. -/
def implAllowed : Option LinkStatus → LinkStatus → Bool
  | some .scanned, .scanning => true
  | prev, next => specAllowed prev next

/-! ### String join helpers -/

theorem strJoin_foldl : ∀ (t : List String) (a : String),
    t.foldl (fun r s => r ++ s) a = a ++ String.join t := by
  intro t
  induction t with
  | nil => intro a; simp [String.join]
  | cons x xs ih =>
    intro a
    show xs.foldl (fun r s => r ++ s) (a ++ x) = a ++ String.join (x :: xs)
    rw [ih (a ++ x)]
    have hx : String.join (x :: xs) = x ++ String.join xs := by
      show xs.foldl (fun r s => r ++ s) ("" ++ x) = x ++ String.join xs
      rw [ih ("" ++ x)]
      simp
    rw [hx, String.append_assoc]

theorem strJoin_cons (x : String) (xs : List String) :
    String.join (x :: xs) = x ++ String.join xs := by
  show xs.foldl (fun r s => r ++ s) ("" ++ x) = x ++ String.join xs
  rw [strJoin_foldl xs ("" ++ x)]
  simp

theorem strJoin_append (l₁ l₂ : List String) :
    String.join (l₁ ++ l₂) = String.join l₁ ++ String.join l₂ := by
  induction l₁ with
  | nil => simp [String.join]
  | cons x xs ih => simp [strJoin_cons, ih, String.append_assoc]

/-! ### Turn accumulation lemmas -/

theorem accumTextPart_foldl : ∀ (parts : List ContentPart) (a : String),
    parts.foldl accumTextPart a =
      a ++ String.join (parts.filterMap ContentPart.text) := by
  intro parts
  induction parts with
  | nil => intro a; simp [String.join]
  | cons p rest ih =>
    intro a
    show rest.foldl accumTextPart (accumTextPart a p) = _
    cases hp : p.text with
    | none => simp [accumTextPart, hp, List.filterMap_cons, ih]
    | some t =>
      by_cases ht : t = ""
      · simp [accumTextPart, hp, ht, List.filterMap_cons, ih, strJoin_cons]
      · simp [accumTextPart, hp, ht, List.filterMap_cons, ih, strJoin_cons,
          String.append_assoc]

theorem accumTextChunk_foldl : ∀ (chunks : List Chunk) (a : String),
    chunks.foldl accumTextChunk a = a ++ joinedText chunks := by
  intro chunks
  induction chunks with
  | nil => intro a; simp [joinedText, String.join]
  | cons c rest ih =>
    intro a
    show rest.foldl accumTextChunk (accumTextChunk a c) = _
    rw [ih, accumTextChunk, accumTextPart_foldl]
    simp [joinedText, strJoin_append, String.append_assoc, chunkTextFragments]

theorem accumulateText_eq_joinedText (chunks : List Chunk) :
    accumulateText chunks = joinedText chunks := by
  rw [accumulateText, accumTextChunk_foldl]
  simp

theorem getLast?_cons_or {α : Type} (x : α) (L : List α) :
    (x :: L).getLast? =
      (match L.getLast? with
       | some y => some y
       | none => some x) := by
  cases L with
  | nil => rfl
  | cons y t =>
    rw [List.getLast?_cons_cons]
    have h : (y :: t).getLast?.isSome = true :=
      List.getLast?_isSome.2 (by simp)
    obtain ⟨z, hz⟩ := Option.isSome_iff_exists.1 h
    rw [hz]

theorem accumCalls_foldl : ∀ (chunks : List Chunk) (acc : Option (List FunctionCall)),
    chunks.foldl accumCallsChunk acc =
      (match (chunks.filterMap Chunk.functionCalls).getLast? with
       | some x => some x
       | none => acc) := by
  intro chunks
  induction chunks with
  | nil => intro acc; rfl
  | cons c rest ih =>
    intro acc
    show rest.foldl accumCallsChunk (accumCallsChunk acc c) = _
    cases hc : c.functionCalls with
    | none =>
      have h1 : accumCallsChunk acc c = acc := by simp [accumCallsChunk, hc]
      rw [h1, ih acc]
      simp [List.filterMap_cons, hc]
    | some l =>
      have h1 : accumCallsChunk acc c = some l := by simp [accumCallsChunk, hc]
      rw [h1, ih (some l)]
      have h2 : (c :: rest).filterMap Chunk.functionCalls =
          l :: rest.filterMap Chunk.functionCalls := by
        simp [List.filterMap_cons, hc]
      rw [h2, getLast?_cons_or]
      cases hg : (rest.filterMap Chunk.functionCalls).getLast? <;> simp

theorem accumulateCalls_eq_lastFunctionCalls (chunks : List Chunk) :
    accumulateCalls chunks = lastFunctionCalls chunks := by
  rw [accumulateCalls, accumCalls_foldl, lastFunctionCalls]
  cases hg : (chunks.filterMap Chunk.functionCalls).getLast? <;> simp

/-- Characterization of the finalized turns of one completed stream in
terms of the specification-side readings of the two accumulation
rules. -/
theorem processStream_eq (chunks : List Chunk) :
    processStreamAndAddMessages chunks =
      (if (joinedText chunks).trim ≠ "" then
        [ChatMessage.text (joinedText chunks).trim .bot] else []) ++
      (match lastFunctionCalls chunks with
       | some fcs => [ChatMessage.functionCall fcs.head?]
       | none => []) ++
      (if (joinedText chunks).trim = "" ∧ lastFunctionCalls chunks = none then
        [ChatMessage.text emptyResponseNotice .bot] else []) := by
  simp only [processStreamAndAddMessages, accumulateText_eq_joinedText,
    accumulateCalls_eq_lastFunctionCalls]

def isProposalTurn : ChatMessage → Bool
  | .functionCall _ => true
  | _ => false

theorem processStream_length (chunks : List Chunk) :
    1 ≤ (processStreamAndAddMessages chunks).length := by
  rw [processStream_eq]
  by_cases ht : (joinedText chunks).trim = ""
  · cases hg : lastFunctionCalls chunks <;> simp [ht, hg]
  · cases hg : lastFunctionCalls chunks <;> simp [ht, hg]

theorem processStream_proposals (chunks : List Chunk) :
    (match lastFunctionCalls chunks with
     | some fcs =>
       (processStreamAndAddMessages chunks).filter isProposalTurn =
         [ChatMessage.functionCall fcs.head?]
     | none => (processStreamAndAddMessages chunks).filter isProposalTurn = []) := by
  rw [processStream_eq]
  by_cases ht : (joinedText chunks).trim = "" <;>
    cases hg : lastFunctionCalls chunks <;>
      simp [ht, hg, isProposalTurn, List.filter_append]

theorem lastFunctionCalls_ne_nil (chunks : List Chunk)
    (hwf : ∀ c ∈ chunks, c.functionCalls ≠ some []) :
    ∀ fcs, lastFunctionCalls chunks = some fcs → fcs ≠ [] := by
  intro fcs h
  have hmem : fcs ∈ chunks.filterMap Chunk.functionCalls :=
    List.mem_of_mem_getLast? h
  obtain ⟨c, hc, hfc⟩ := List.mem_filterMap.1 hmem
  intro hnil
  exact hwf c hc (hnil ▸ hfc)

/-- Claim C1: for every completed response stream, the accumulator
concatenates all textual fragments across all chunks in chunk order
into one string, and the last chunk carrying a non-empty tool-call
list overwrites any previously seen one; after the stream ends a text
turn is emitted iff the trimmed concatenation is non-empty, exactly
one tool-call-proposal turn carrying the first proposed call is
emitted iff a tool-call list was captured, and the fixed
empty-response text turn is emitted iff neither happened — so at least
one turn is produced per completed send. -/
theorem processStream_turns (chunks : List Chunk)
    (hwf : ∀ c ∈ chunks, c.functionCalls ≠ some []) :
    (accumulateText chunks = joinedText chunks ∧
      accumulateCalls chunks = lastFunctionCalls chunks) ∧
    processStreamAndAddMessages chunks =
      (if (joinedText chunks).trim ≠ "" then
        [ChatMessage.text (joinedText chunks).trim .bot] else []) ++
      (match lastFunctionCalls chunks with
       | some fcs => [ChatMessage.functionCall fcs.head?]
       | none => []) ++
      (if (joinedText chunks).trim = "" ∧ lastFunctionCalls chunks = none then
        [ChatMessage.text emptyResponseNotice .bot] else []) ∧
    1 ≤ (processStreamAndAddMessages chunks).length ∧
    (∀ fcs, lastFunctionCalls chunks = some fcs →
      ∃ fc0 rest, fcs = fc0 :: rest ∧
        (processStreamAndAddMessages chunks).filter isProposalTurn =
          [ChatMessage.functionCall (some fc0)]) ∧
    (lastFunctionCalls chunks = none →
      (processStreamAndAddMessages chunks).filter isProposalTurn = []) := by
  refine ⟨⟨accumulateText_eq_joinedText chunks, accumulateCalls_eq_lastFunctionCalls chunks⟩,
    processStream_eq chunks, processStream_length chunks, ?_, ?_⟩
  · intro fcs h
    have hne := lastFunctionCalls_ne_nil chunks hwf fcs h
    have hp := processStream_proposals chunks
    rw [h] at hp
    cases fcs with
    | nil => exact absurd rfl hne
    | cons fc0 rest =>
      exact ⟨fc0, rest, rfl, by simpa using hp⟩
  · intro h
    have hp := processStream_proposals chunks
    rw [h] at hp
    simpa using hp

/-- A two-chunk stream: text in both chunks, two tool calls in the
final chunk. -/
def demoChunks : List Chunk :=
  [ { parts := [{ text := some "Hello" }, { text := none }], functionCalls := none },
    { parts := [{ text := some " world" }]
      functionCalls := some
        [ { name := "scanPages", args := { urls := ["https://a.example/p"] } },
          { name := "performSeoAnalysis", args := { url := "https://a.example/p" } } ] } ]

theorem processStream_turns_witness :
    1 ≤ (processStreamAndAddMessages demoChunks).length :=
  (processStream_turns demoChunks (by decide)).2.2.1

/-- Claim C4: if the very first seed scan fails, the session does not
open — a user-visible error is surfaced, the system returns to the
pre-scan input stage, and the link and asset mappings are left exactly
as they were before the scan. -/
theorem initialScan_failure_atomic (st : AppState) (url msg : String)
    (oracle : ScanOracle) (h : oracle url = .err msg) :
    (handleInitialScan st url oracle).status = AppStatus.input ∧
    (handleInitialScan st url oracle).error = some msg ∧
    (handleInitialScan st url oracle).links = st.links ∧
    (handleInitialScan st url oracle).assets = st.assets := by
  simp [handleInitialScan, h]

def failOracle : ScanOracle := fun _ => .err "Network request failed"

theorem initialScan_failure_atomic_witness :
    (handleInitialScan initialState "https://seed.example" failOracle).status = AppStatus.input ∧
    (handleInitialScan initialState "https://seed.example" failOracle).error =
      some "Network request failed" ∧
    (handleInitialScan initialState "https://seed.example" failOracle).links =
      initialState.links ∧
    (handleInitialScan initialState "https://seed.example" failOracle).assets =
      initialState.assets :=
  initialScan_failure_atomic initialState "https://seed.example" "Network request failed"
    failOracle rfl

/-! ### Frontier registration lemmas -/

theorem registerLinkStep_get_some (s : AppState) (x u : String) (r : DiscoveredLink)
    (h : mapGet s.links u = some r) :
    mapGet (registerLinkStep s x).links u = some r := by
  unfold registerLinkStep
  split
  · exact h
  · show mapGet (s.links ++ [(x, pendingLink x)]) u = some r
    rw [mapGet_append, h]

theorem registerLinkStep_get_none (s : AppState) (x u : String)
    (h : mapGet s.links u = none) (hx : x ≠ u) :
    mapGet (registerLinkStep s x).links u = none := by
  unfold registerLinkStep
  split
  · exact h
  · show mapGet (s.links ++ [(x, pendingLink x)]) u = none
    rw [mapGet_append, h]
    simp [mapGet, hx]

theorem register_get_some (urls : List String) :
    ∀ (st : AppState) (u : String) (r : DiscoveredLink),
      mapGet st.links u = some r →
      mapGet (registerDiscoveredLinks st urls).links u = some r := by
  induction urls with
  | nil => intro st u r h; exact h
  | cons x rest ih =>
    intro st u r h
    show mapGet (rest.foldl registerLinkStep (registerLinkStep st x)).links u = some r
    exact ih (registerLinkStep st x) u r (registerLinkStep_get_some st x u r h)

theorem register_get_insert (urls : List String) :
    ∀ (st : AppState) (u : String),
      mapGet st.links u = none → u ∈ urls →
      mapGet (registerDiscoveredLinks st urls).links u = some (pendingLink u) := by
  induction urls with
  | nil => intro st u _ hm; cases hm
  | cons x rest ih =>
    intro st u h hm
    show mapGet (rest.foldl registerLinkStep (registerLinkStep st x)).links u = _
    by_cases hx : x = u
    · subst hx
      have hstep : mapGet (registerLinkStep st x).links x = some (pendingLink x) := by
        unfold registerLinkStep
        rw [h]
        show mapGet (st.links ++ [(x, pendingLink x)]) x = some (pendingLink x)
        rw [mapGet_append, h]
        simp [mapGet]
      exact register_get_some rest (registerLinkStep st x) x (pendingLink x) hstep
    · have hm' : u ∈ rest := by
        cases hm with
        | head => exact absurd rfl hx
        | tail _ hmem => exact hmem
      exact ih (registerLinkStep st x) u (registerLinkStep_get_none st x u h hx) hm'

theorem assetsFold_get_some (assets : List DiscoveredAsset) :
    ∀ (m : List (String × DiscoveredAsset)) (u : String) (a : DiscoveredAsset),
      mapGet m u = some a →
      mapGet (assets.foldl addAssetStep m) u = some a := by
  induction assets with
  | nil => intro m u a h; exact h
  | cons x rest ih =>
    intro m u a h
    show mapGet (rest.foldl addAssetStep (addAssetStep m x)) u = some a
    refine ih (addAssetStep m x) u a ?_
    unfold addAssetStep
    split
    · exact h
    · rw [mapGet_append, h]

theorem assetsFold_get_none (assets : List DiscoveredAsset) :
    ∀ (m : List (String × DiscoveredAsset)) (u : String),
      mapGet m u = none →
      mapGet (assets.foldl addAssetStep m) u =
        assets.find? (fun a => a.url == u) := by
  induction assets with
  | nil => intro m u h; simpa using h
  | cons x rest ih =>
    intro m u h
    show mapGet (rest.foldl addAssetStep (addAssetStep m x)) u = _
    by_cases hx : x.url = u
    · have hloc : mapGet m x.url = none := by rw [hx]; exact h
      have hstep : mapGet (addAssetStep m x) u = some x := by
        unfold addAssetStep
        rw [hloc]
        show mapGet (m ++ [(x.url, x)]) u = some x
        rw [mapGet_append, h]
        simp [mapGet, hx]
      rw [assetsFold_get_some rest (addAssetStep m x) u x hstep]
      simp [List.find?, hx]
    · have hstep : mapGet (addAssetStep m x) u = none := by
        unfold addAssetStep
        split
        · exact h
        · rw [mapGet_append, h]
          simp [mapGet, hx]
      rw [ih (addAssetStep m x) u hstep]
      have : (x.url == u) = false := by simp [hx]
      simp [List.find?, this]

/-- The record `updateLinkStatus` writes when the URL is unknown:
the spread of `undefined` contributes nothing, so only the positional
status and the patch fields are present. -/
def spreadUndefinedLink (status : LinkStatus) : DiscoveredLink :=
  { url := none, status := status, title := none
    textContent := none, htmlContent := none }

/-- Counterexample to claim C6: `updateLinkStatus` on a URL that is
not a key of the link mapping does not leave the frontier unchanged —
on the empty mapping it creates an entry. -/
theorem updateLinkStatus_unknown_cex :
    updateLinkStatus ([] : List (String × DiscoveredLink))
      "https://unknown.example" .scanning {} ≠ [] := by
  decide

/-- Claim C6 (amended): for a URL that is not a key of the link
mapping, `updateLinkStatus` does not fail silently: it appends a new
entry under that URL whose record is the spread `{ status, ...data }`
(no `url` or `title` field unless the patch carries one); all existing
entries are left unchanged. -/
theorem updateLinkStatus_unknown_creates (links : List (String × DiscoveredLink))
    (url : String) (status : LinkStatus) (data : LinkPatch)
    (h : mapGet links url = none) :
    updateLinkStatus links url status data =
      links ++ [(url, applyPatch (spreadUndefinedLink status) data)] := by
  unfold updateLinkStatus
  rw [h]
  show mapSet links url (applyPatch { spreadUndefinedLink status with status := status } data) = _
  rw [mapSet_of_get_none links url _ h]
  rfl

theorem updateLinkStatus_unknown_creates_witness :
    updateLinkStatus ([] : List (String × DiscoveredLink))
      "https://unknown.example" .scanning {} =
      [] ++ [("https://unknown.example", applyPatch (spreadUndefinedLink .scanning) {})] :=
  updateLinkStatus_unknown_creates [] "https://unknown.example" .scanning {} rfl

/-- Claim C8: registering discovered links is idempotent — a URL
already present as a key keeps its record (status, title, content)
unchanged, and a URL not yet present is inserted with status `pending`
and the placeholder title. -/
theorem registerDiscoveredLinks_idempotent (st : AppState) (urls : List String)
    (u : String) :
    (∀ r, mapGet st.links u = some r →
      mapGet (registerDiscoveredLinks st urls).links u = some r) ∧
    (mapGet st.links u = none → u ∈ urls →
      mapGet (registerDiscoveredLinks st urls).links u = some (pendingLink u)) :=
  ⟨fun r h => register_get_some urls st u r h,
   fun h hm => register_get_insert urls st u h hm⟩

def scannedDemoLink : DiscoveredLink :=
  { url := some "https://a.example", status := .scanned, title := some "A"
    textContent := some "text of A", htmlContent := some "<html>A</html>" }

def regDemoState : AppState :=
  { initialState with links := [("https://a.example", scannedDemoLink)] }

theorem registerDiscoveredLinks_idempotent_witness :
    mapGet (registerDiscoveredLinks regDemoState
      ["https://a.example", "https://b.example"]).links "https://a.example" =
      some scannedDemoLink :=
  (registerDiscoveredLinks_idempotent regDemoState
    ["https://a.example", "https://b.example"] "https://a.example").1
    scannedDemoLink (by rfl)

/-- Claim C9: asset registration is first-write-wins — an asset URL
already present keeps its original record (kind and source page)
whatever is registered later, and an absent asset URL is inserted as
the first asset of the batch carrying it (none when the batch does not
carry it). -/
theorem addDiscoveredAssets_firstWriteWins (st : AppState)
    (assets : List DiscoveredAsset) (u : String) :
    (∀ a, mapGet st.assets u = some a →
      mapGet (addDiscoveredAssets st assets).assets u = some a) ∧
    (mapGet st.assets u = none →
      mapGet (addDiscoveredAssets st assets).assets u =
        assets.find? (fun a => a.url == u)) :=
  ⟨fun a h => assetsFold_get_some assets st.assets u a h,
   fun h => assetsFold_get_none assets st.assets u h⟩

def demoAssetA : DiscoveredAsset :=
  { url := "https://a.example/logo.png", assetType := .image
    sourcePage := "https://a.example" }

def demoAssetB : DiscoveredAsset :=
  { url := "https://a.example/logo.png", assetType := .pdf
    sourcePage := "https://b.example" }

def assetDemoState : AppState :=
  { initialState with assets := [(demoAssetA.url, demoAssetA)] }

theorem addDiscoveredAssets_firstWriteWins_witness :
    mapGet (addDiscoveredAssets assetDemoState [demoAssetB]).assets
      "https://a.example/logo.png" = some demoAssetA :=
  (addDiscoveredAssets_firstWriteWins assetDemoState [demoAssetB]
    "https://a.example/logo.png").1 demoAssetA (by rfl)

/-! ### Dispatcher theorems -/

/-- Claim C5: on a URL whose link record is not `scanned` with markup
present, both `extractDataFromPage` and `performSeoAnalysis` return
the structured `success: false` payload, leave the state (frontier and
collaborator log) untouched, and in particular never invoke their
analyzer collaborator; no exception is involved — the failure is the
value of the totally-defined dispatcher. -/
theorem extract_seo_require_scanned (st : AppState) (collab : Collaborators)
    (stop : Nat → Bool) (url dataType : String)
    (h : scannedWithMarkup st url = false) :
    ((handleFunctionCallResponse st true
        { name := "extractDataFromPage", args := { url := url, dataType := dataType } }
        collab stop true).state = st ∧
      (handleFunctionCallResponse st true
        { name := "extractDataFromPage", args := { url := url, dataType := dataType } }
        collab stop true).payload = notScannedPayload url) ∧
    ((handleFunctionCallResponse st true
        { name := "performSeoAnalysis", args := { url := url } }
        collab stop true).state = st ∧
      (handleFunctionCallResponse st true
        { name := "performSeoAnalysis", args := { url := url } }
        collab stop true).payload = notScannedPayload url) := by
  cases hm : mapGet st.links url with
  | none =>
    constructor <;> constructor <;> simp [handleFunctionCallResponse, hm]
  | some l =>
    have hc : (l.status == LinkStatus.scanned && truthyStr l.htmlContent) = false := by
      have := h
      rw [scannedWithMarkup, hm] at this
      exact this
    constructor <;> constructor <;> simp [handleFunctionCallResponse, hm, hc]

def pendingOnlyState : AppState :=
  { initialState with
      status := .chat
      links := [("https://p.example", pendingLink "https://p.example")] }

def demoOkResult : ScanResult :=
  { title := "Demo", textContent := "body text", htmlContent := "<html>ok</html>"
    links := [], assets := [] }

def okOracle : ScanOracle := fun _ => .ok demoOkResult

def demoCollab : Collaborators :=
  { scanPage := okOracle
    extractStructuredData := fun _ _ => "structured data"
    analyzeSeo := fun _ => "seo report"
    fetchAndEncodeImage := fun _ => .error "no network" }

theorem extract_seo_require_scanned_witness :
    (handleFunctionCallResponse pendingOnlyState true
      { name := "extractDataFromPage"
        args := { url := "https://p.example", dataType := "emails" } }
      demoCollab (fun _ => false) true).payload =
      notScannedPayload "https://p.example" :=
  ((extract_seo_require_scanned pendingOnlyState demoCollab (fun _ => false)
    "https://p.example" "emails" (by decide)).1).2

/-- Claim C10: an approved tool call whose name is none of the five
recognized names mutates nothing (frontier, assets, collaborator log
all unchanged), yet a function-response message carrying the still
empty result payload is sent back to the planner, so the approval
protocol does not stall. -/
theorem unrecognized_tool_roundtrip (st : AppState) (fc : FunctionCall)
    (collab : Collaborators) (stop : Nat → Bool)
    (h : fc.name ∉ (["scanPages", "extractDataFromPage", "performSeoAnalysis",
      "analyzeImageFromUrl", "scanAllPendingPages"] : List String)) :
    (handleFunctionCallResponse st true fc collab stop true).state = st ∧
    (handleFunctionCallResponse st true fc collab stop true).payload = .empty ∧
    (handleFunctionCallResponse st true fc collab stop true).sent =
      [SentMessage.functionResponse fc.name .empty] := by
  have h1 : ¬ fc.name = "scanPages" := fun hh => h (by simp [hh])
  have h2 : ¬ fc.name = "extractDataFromPage" := fun hh => h (by simp [hh])
  have h3 : ¬ fc.name = "performSeoAnalysis" := fun hh => h (by simp [hh])
  have h4 : ¬ fc.name = "analyzeImageFromUrl" := fun hh => h (by simp [hh])
  have h5 : ¬ fc.name = "scanAllPendingPages" := fun hh => h (by simp [hh])
  refine ⟨?_, ?_, ?_⟩ <;> simp [handleFunctionCallResponse, h1, h2, h3, h4, h5]

theorem unrecognized_tool_roundtrip_witness :
    (handleFunctionCallResponse pendingOnlyState true
      { name := "deleteAllPages", args := {} } demoCollab (fun _ => false) true).sent =
      [SentMessage.functionResponse "deleteAllPages" .empty] :=
  (unrecognized_tool_roundtrip pendingOnlyState
    { name := "deleteAllPages", args := {} } demoCollab (fun _ => false)
    (by decide)).2.2

/-- Claim C2 is violated by the code (`await handleFullScan(true)`):
dispatching an approved `scanAllPendingPages` over a frontier with one
pending URL runs the bulk scan to completion — the pending URL is
already `scanned` in the state at the moment the "Full scan initiated"
acknowledgment is sent back to the planner, so the controller's
completion *is* awaited by this call. -/
theorem scanAllPendingPages_awaits_completion :
    (mapGet (handleFunctionCallResponse pendingOnlyState true
        { name := "scanAllPendingPages", args := {} } demoCollab
        (fun _ => false) true).state.links "https://p.example").map
      DiscoveredLink.status = some .scanned ∧
    (handleFunctionCallResponse pendingOnlyState true
        { name := "scanAllPendingPages", args := {} } demoCollab
        (fun _ => false) true).sent =
      [SentMessage.functionResponse "scanAllPendingPages" (.ack fullScanAck)] := by
  constructor <;> decide

/-! ### Bulk scan and cancellation -/

theorem updateLinkStatus_get_ne (links : List (String × DiscoveredLink))
    (url : String) (status : LinkStatus) (data : LinkPatch) (u : String)
    (h : u ≠ url) :
    mapGet (updateLinkStatus links url status data) u = mapGet links u := by
  unfold updateLinkStatus
  exact mapGet_mapSet_ne links url u _ h

theorem updateLinkStatus_status_self (links : List (String × DiscoveredLink))
    (url : String) (status : LinkStatus) (data : LinkPatch)
    (hd : data.status = none) :
    (mapGet (updateLinkStatus links url status data) url).map
      DiscoveredLink.status = some status := by
  unfold updateLinkStatus
  rw [mapGet_mapSet_self]
  simp [applyPatch, hd]


theorem register_collabLog (urls : List String) : ∀ (st : AppState),
    (registerDiscoveredLinks st urls).collabLog = st.collabLog := by
  induction urls with
  | nil => intro st; rfl
  | cons x rest ih =>
    intro st
    show (registerDiscoveredLinks (registerLinkStep st x) rest).collabLog = _
    rw [ih (registerLinkStep st x)]
    unfold registerLinkStep
    split <;> rfl

theorem register_then_status (urls : List String) (s : AppState) (u : String)
    (stt : LinkStatus)
    (h : (mapGet s.links u).map DiscoveredLink.status = some stt) :
    (mapGet (registerDiscoveredLinks s urls).links u).map DiscoveredLink.status =
      some stt := by
  cases hm : mapGet s.links u with
  | none => rw [hm] at h; simp at h
  | some l =>
    rw [hm] at h
    rw [register_get_some urls s u l hm]
    exact h

/-- The status a completed scan attempt stores for its URL. -/
def scanOutcomeStatus : ScanOutcome → LinkStatus
  | .ok _ => .scanned
  | .err _ => .failed

theorem scanOne_collabLog (st : AppState) (oracle : ScanOracle) (target : String) :
    (scanOne st oracle target).collabLog =
      st.collabLog ++ [CollabCall.scanPage target] := by
  unfold scanOne
  cases ho : oracle target with
  | ok res =>
    simp only [addDiscoveredAssets]
    rw [register_collabLog res.links]
    simp [updateLinkStatusS]
  | err m => simp [updateLinkStatusS]

theorem scanOne_get_ne (st : AppState) (oracle : ScanOracle) (target u : String)
    (r : DiscoveredLink) (h : u ≠ target) (hr : mapGet st.links u = some r) :
    mapGet (scanOne st oracle target).links u = some r := by
  unfold scanOne
  cases ho : oracle target with
  | ok res =>
    simp only [addDiscoveredAssets]
    refine register_get_some res.links _ u r ?_
    simp only [updateLinkStatusS]
    rw [updateLinkStatus_get_ne _ _ _ _ u h, updateLinkStatus_get_ne _ _ _ _ u h]
    exact hr
  | err m =>
    simp only [updateLinkStatusS]
    rw [updateLinkStatus_get_ne _ _ _ _ u h, updateLinkStatus_get_ne _ _ _ _ u h]
    exact hr

theorem scanOne_status_self (st : AppState) (oracle : ScanOracle) (target : String) :
    (mapGet (scanOne st oracle target).links target).map DiscoveredLink.status =
      some (scanOutcomeStatus (oracle target)) := by
  unfold scanOne
  cases ho : oracle target with
  | ok res =>
    simp only [addDiscoveredAssets, scanOutcomeStatus]
    refine register_then_status res.links _ target _ ?_
    simp only [updateLinkStatusS]
    exact updateLinkStatus_status_self _ _ _ _ rfl
  | err m =>
    simp only [updateLinkStatusS, scanOutcomeStatus]
    exact updateLinkStatus_status_self _ _ _ _ rfl

/-- The fold the bulk-scan loop performs over the part of the snapshot
it reaches before the stop flag is observed. -/
def applyScans (oracle : ScanOracle) (st : AppState) (urls : List String) : AppState :=
  urls.foldl (fun s u => scanOne s oracle u) st

theorem applyScans_collabLog (oracle : ScanOracle) (urls : List String) :
    ∀ (st : AppState), (applyScans oracle st urls).collabLog =
      st.collabLog ++ urls.map CollabCall.scanPage := by
  induction urls with
  | nil => intro st; simp [applyScans]
  | cons a rest ih =>
    intro st
    show (applyScans oracle (scanOne st oracle a) rest).collabLog = _
    rw [ih (scanOne st oracle a), scanOne_collabLog]
    simp

theorem applyScans_get_present (oracle : ScanOracle) (urls : List String) :
    ∀ (st : AppState) (u : String) (r : DiscoveredLink),
      mapGet st.links u = some r → u ∉ urls →
      mapGet (applyScans oracle st urls).links u = some r := by
  induction urls with
  | nil => intro st u r hr _; exact hr
  | cons a rest ih =>
    intro st u r hr hu
    have hua : u ≠ a := fun hh => hu (hh ▸ List.mem_cons_self a rest)
    have hur : u ∉ rest := fun hh => hu (List.mem_cons_of_mem a hh)
    exact ih (scanOne st oracle a) u r (scanOne_get_ne st oracle a u r hua hr) hur

theorem applyScans_status_mem (oracle : ScanOracle) (urls : List String) :
    ∀ (st : AppState) (u : String), urls.Nodup → u ∈ urls →
      (mapGet (applyScans oracle st urls).links u).map DiscoveredLink.status =
        some (scanOutcomeStatus (oracle u)) := by
  induction urls with
  | nil => intro st u _ hm; cases hm
  | cons a rest ih =>
    intro st u hnd hm
    have hnd' := List.nodup_cons.1 hnd
    by_cases hua : u = a
    · subst hua
      have hself := scanOne_status_self st oracle u
      obtain ⟨l, hl, hls⟩ : ∃ l, mapGet (scanOne st oracle u).links u = some l ∧
          l.status = scanOutcomeStatus (oracle u) := by
        cases hm2 : mapGet (scanOne st oracle u).links u with
        | none => rw [hm2] at hself; simp at hself
        | some l => rw [hm2] at hself; exact ⟨l, rfl, by simpa using hself⟩
      show (mapGet (applyScans oracle (scanOne st oracle u) rest).links u).map
        DiscoveredLink.status = _
      rw [applyScans_get_present oracle rest (scanOne st oracle u) u l hl hnd'.1]
      simp [hls]
    · have hmr : u ∈ rest := by
        cases hm with
        | head => exact absurd rfl hua
        | tail _ hh => exact hh
      exact ih (scanOne st oracle a) u hnd'.2 hmr

theorem fullScanLoop_eq_take (oracle : ScanOracle) (stop : Nat → Bool) (j : Nat)
    (hstop : stop j = true) (hbefore : ∀ k, k < j → stop k = false) :
    ∀ (urls : List String) (st : AppState) (i : Nat), i ≤ j →
      fullScanLoop oracle stop urls st i = applyScans oracle st (urls.take (j - i)) := by
  intro urls
  induction urls with
  | nil => intro st i _; simp [fullScanLoop, applyScans]
  | cons a rest ih =>
    intro st i hij
    by_cases hsi : stop i = true
    · have hji : ¬ i < j := fun hh => by rw [hbefore i hh] at hsi; cases hsi
      have hji' : i = j := le_antisymm hij (not_lt.1 hji)
      have hz : j - i = 0 := by omega
      rw [hz]
      show fullScanLoop oracle stop (a :: rest) st i = st
      unfold fullScanLoop
      rw [hsi]
      simp
    · have hlt : i < j := by
        rcases lt_or_eq_of_le hij with h | h
        · exact h
        · rw [h] at hsi; exact absurd hstop hsi
      have hsucc : j - i = (j - (i + 1)) + 1 := by omega
      rw [hsucc, List.take_succ_cons]
      show fullScanLoop oracle stop (a :: rest) st i =
        applyScans oracle (scanOne st oracle a) (rest.take (j - (i + 1)))
      unfold fullScanLoop
      rw [if_neg (by simp [hsi])]
      exact ih (scanOne st oracle a) (i + 1) hlt

theorem mapGet_of_mem_nodup {α : Type} : ∀ (m : List (String × α)) (k : String) (v : α),
    (m.map Prod.fst).Nodup → (k, v) ∈ m → mapGet m k = some v := by
  intro m
  induction m with
  | nil => intro k v _ h; cases h
  | cons p rest ih =>
    intro k v hnd hm
    have hnd' : p.1 ∉ rest.map Prod.fst ∧ (rest.map Prod.fst).Nodup := by
      rw [List.map_cons] at hnd
      exact List.nodup_cons.1 hnd
    cases hm with
    | head => simp [mapGet]
    | tail _ hmem =>
      have hk : k ∈ rest.map Prod.fst := List.mem_map.2 ⟨(k, v), hmem, rfl⟩
      have hne : ¬ p.1 = k := fun hh => hnd'.1 (hh ▸ hk)
      simp [mapGet, hne, ih k v hnd'.2 hmem]

theorem pendingUrls_eq_keys : ∀ (l : List (String × DiscoveredLink)),
    (∀ p ∈ l, p.2.url = some p.1) →
    ((l.map Prod.snd).filter (fun r => r.status == .pending)).filterMap
      DiscoveredLink.url =
      (l.filter (fun p => p.2.status == .pending)).map Prod.fst := by
  intro l
  induction l with
  | nil => intro _; rfl
  | cons p rest ih =>
    intro hurl
    have hp := hurl p (List.mem_cons_self p rest)
    have hrest : ∀ q ∈ rest, q.2.url = some q.1 :=
      fun q hq => hurl q (List.mem_cons_of_mem p hq)
    by_cases hps : (p.2.status == LinkStatus.pending) = true
    · simp [List.map_cons, List.filter_cons, hps, List.filterMap_cons, hp, ih hrest]
    · simp [List.map_cons, List.filter_cons, hps, ih hrest]

theorem pendingUrls_nodup (st : AppState) (hnd : (st.links.map Prod.fst).Nodup)
    (hurl : ∀ p ∈ st.links, p.2.url = some p.1) : (pendingUrls st).Nodup := by
  rw [show pendingUrls st =
    (st.links.filter (fun p => p.2.status == .pending)).map Prod.fst from
    pendingUrls_eq_keys st.links hurl]
  exact List.Nodup.sublist ((List.filter_sublist _).map Prod.fst) hnd

theorem pendingUrls_mem (st : AppState) (hnd : (st.links.map Prod.fst).Nodup)
    (hurl : ∀ p ∈ st.links, p.2.url = some p.1) (u : String)
    (hu : u ∈ pendingUrls st) :
    ∃ r, mapGet st.links u = some r ∧ r.status = .pending := by
  rw [show pendingUrls st =
    (st.links.filter (fun p => p.2.status == .pending)).map Prod.fst from
    pendingUrls_eq_keys st.links hurl] at hu
  obtain ⟨p, hpmem, hpu⟩ := List.mem_map.1 hu
  have hpf := List.mem_filter.1 hpmem
  refine ⟨p.2, ?_, by simpa using hpf.2⟩
  have hmem : (p.1, p.2) ∈ st.links := by simpa using hpf.1
  rw [← hpu]
  exact mapGet_of_mem_nodup st.links p.1 p.2 hnd hmem

/-- Claim C7: in a bulk-scan run whose stop flag first reads true at
iteration boundary `j`, exactly the first `j` snapshotted pending URLs
are handed to the Scan Executor (no new per-URL scan starts once the
flag is set); each of those runs to completion and its result is
applied, ending `scanned` on success and `failed` on error; and every
pending URL at or beyond the stop boundary keeps its record — in the
two-URL scenario, stop after `B` leaves `B` settled and `C` still
`pending`. -/
theorem bulkScan_stop_boundary (st : AppState) (oracle : ScanOracle)
    (stop : Nat → Bool) (j : Nat)
    (hbefore : ∀ k, k < j → stop k = false) (hstop : stop j = true)
    (hnd : (st.links.map Prod.fst).Nodup)
    (hurl : ∀ p ∈ st.links, p.2.url = some p.1) :
    (handleFullScan st oracle stop).collabLog =
      st.collabLog ++ ((pendingUrls st).take j).map CollabCall.scanPage ∧
    (∀ u ∈ (pendingUrls st).take j,
      (mapGet (handleFullScan st oracle stop).links u).map DiscoveredLink.status =
        some (scanOutcomeStatus (oracle u)) ∧
      (scanOutcomeStatus (oracle u) = .scanned ∨ scanOutcomeStatus (oracle u) = .failed)) ∧
    (∀ u ∈ (pendingUrls st).drop j,
      mapGet (handleFullScan st oracle stop).links u = mapGet st.links u) := by
  have heq : handleFullScan st oracle stop =
      applyScans oracle st ((pendingUrls st).take j) := by
    unfold handleFullScan
    rw [fullScanLoop_eq_take oracle stop j hstop hbefore (pendingUrls st) st 0
      (Nat.zero_le j), Nat.sub_zero]
  have hpnd : (pendingUrls st).Nodup := pendingUrls_nodup st hnd hurl
  refine ⟨?_, ?_, ?_⟩
  · rw [heq, applyScans_collabLog]
  · intro u hu
    constructor
    · rw [heq]
      exact applyScans_status_mem oracle ((pendingUrls st).take j) st u
        (List.Nodup.sublist (List.take_sublist j (pendingUrls st)) hpnd) hu
    · cases ho : oracle u with
      | ok r => exact Or.inl rfl
      | err m => exact Or.inr rfl
  · intro u hu
    have hnin : u ∉ (pendingUrls st).take j := by
      intro hmem
      exact List.disjoint_take_drop hpnd (le_refl j) hmem hu
    obtain ⟨r, hr, _⟩ := pendingUrls_mem st hnd hurl u (List.drop_subset j _ hu)
    rw [heq, applyScans_get_present oracle _ st u r hr hnin, hr]

def scanningDemoLinkA : DiscoveredLink :=
  { url := some "https://site.example/a", status := .scanned, title := some "A"
    textContent := some "seed text", htmlContent := some "<html>a</html>" }

/-- Frontier after a seed scan of `A` that discovered `B` and `C`. -/
def bulkDemoState : AppState :=
  { initialState with
      status := .chat
      links := [("https://site.example/a", scanningDemoLinkA),
                ("https://site.example/b", pendingLink "https://site.example/b"),
                ("https://site.example/c", pendingLink "https://site.example/c")] }

/-- The stop flag of a run whose `stop()` happens between the first and
second iteration. -/
def stopAfterOne : Nat → Bool := fun i => decide (1 ≤ i)

theorem bulkScan_stop_boundary_witness :
    mapGet (handleFullScan bulkDemoState okOracle stopAfterOne).links
      "https://site.example/c" = mapGet bulkDemoState.links "https://site.example/c" :=
  (bulkScan_stop_boundary bulkDemoState okOracle stopAfterOne 1
    (fun k hk => by
      have hk0 : k = 0 := by omega
      rw [hk0]
      rfl)
    (by rfl) (by decide) (by decide)).2.2 "https://site.example/c" (by decide)

/-! ### Status machine invariant -/

/-- Every logged status write is an implementation-allowed transition. -/
def eventsOK (evs : List StatusEvent) : Prop :=
  ∀ e ∈ evs, implAllowed e.prev e.next = true

/-- No link rests in `scanning` between operations: every scan attempt
that starts also settles within the same operation. -/
def noScanning (links : List (String × DiscoveredLink)) : Prop :=
  ∀ u r, mapGet links u = some r → r.status ≠ .scanning

def MachineInv (st : AppState) : Prop :=
  eventsOK st.events ∧ noScanning st.links

theorem eventsOK_append (l₁ l₂ : List StatusEvent)
    (h₁ : eventsOK l₁) (h₂ : eventsOK l₂) : eventsOK (l₁ ++ l₂) :=
  fun e he => (List.mem_append.1 he).elim (h₁ e) (h₂ e)

theorem noScanning_map_ne (links : List (String × DiscoveredLink))
    (hns : noScanning links) (u : String) :
    (mapGet links u).map DiscoveredLink.status ≠ some .scanning := by
  cases hm : mapGet links u with
  | none => simp
  | some r =>
    intro hh
    simp at hh
    exact hns u r hm hh

theorem implAllowed_to_scanning (o : Option LinkStatus)
    (h : o ≠ some .scanning) : implAllowed o .scanning = true := by
  cases o with
  | none => rfl
  | some s =>
    cases s with
    | pending => rfl
    | scanning => exact absurd rfl h
    | scanned => rfl
    | failed => rfl

/-- The two status writes a single scan attempt performs (mark
`scanning`, then settle) preserve the invariant: the first write sees
a non-`scanning` record or none, the second sees `scanning`. -/
theorem updateTwice_inv (s : AppState) (target : String) (final : LinkStatus)
    (patch : LinkPatch) (hfin : implAllowed (some .scanning) final = true)
    (hps : patch.status = none) (extraLog : List CollabCall) (h : MachineInv s) :
    MachineInv (updateLinkStatusS
      { updateLinkStatusS s target .scanning {} with collabLog := extraLog }
      target final patch) := by
  have hprev : implAllowed ((mapGet s.links target).map DiscoveredLink.status)
      LinkStatus.scanning = true :=
    implAllowed_to_scanning _ (noScanning_map_ne s.links h.2 target)
  have hfs : final ≠ .scanning := by
    intro hh
    rw [hh] at hfin
    simp [implAllowed, specAllowed] at hfin
  constructor
  · intro e he
    simp only [updateLinkStatusS] at he
    rcases List.mem_append.1 he with he1 | he2
    · rcases List.mem_append.1 he1 with ha | hb
      · exact h.1 e ha
      · rw [List.mem_singleton] at hb
        subst hb
        exact hprev
    · rw [List.mem_singleton] at he2
      subst he2
      have hscan : (mapGet (updateLinkStatus s.links target .scanning {}) target).map
          DiscoveredLink.status = some .scanning :=
        updateLinkStatus_status_self _ _ _ _ rfl
      show implAllowed ((mapGet (updateLinkStatus s.links target .scanning {}) target).map
        DiscoveredLink.status) (patch.status.getD final) = true
      rw [hscan, hps]
      exact hfin
  · intro u r hm
    simp only [updateLinkStatusS] at hm
    by_cases hu : u = target
    · subst hu
      have hself : (mapGet (updateLinkStatus (updateLinkStatus s.links u .scanning {})
          u final patch) u).map DiscoveredLink.status = some final :=
        updateLinkStatus_status_self _ _ _ _ hps
      rw [hm] at hself
      simp at hself
      rw [hself]
      exact hfs
    · have hne : mapGet (updateLinkStatus (updateLinkStatus s.links target .scanning {})
          target final patch) u = mapGet s.links u := by
        rw [updateLinkStatus_get_ne _ _ _ _ u hu, updateLinkStatus_get_ne _ _ _ _ u hu]
      rw [hne] at hm
      exact h.2 u r hm

theorem register_inv (urls : List String) : ∀ (s : AppState), MachineInv s →
    MachineInv (registerDiscoveredLinks s urls) := by
  induction urls with
  | nil => intro s h; exact h
  | cons x rest ih =>
    intro s h
    show MachineInv (registerDiscoveredLinks (registerLinkStep s x) rest)
    refine ih _ ?_
    unfold registerLinkStep
    split
    · exact h
    · constructor
      · refine eventsOK_append _ _ h.1 ?_
        intro e he
        rw [List.mem_singleton] at he
        subst he
        rfl
      · intro u r hm
        rw [mapGet_append] at hm
        cases hg : mapGet s.links u with
        | some r0 =>
          rw [hg] at hm
          have : r0 = r := by simpa using hm
          subst this
          exact h.2 u r0 hg
        | none =>
          rw [hg] at hm
          by_cases hx : x = u
          · have : pendingLink x = r := by simpa [mapGet, hx] using hm
            rw [← this]
            simp [pendingLink]
          · simp [mapGet, hx] at hm

theorem addAssets_inv (s : AppState) (assets : List DiscoveredAsset)
    (h : MachineInv s) : MachineInv (addDiscoveredAssets s assets) := h

theorem scanOne_inv (oracle : ScanOracle) (target : String) (s : AppState)
    (h : MachineInv s) : MachineInv (scanOne s oracle target) := by
  unfold scanOne
  cases ho : oracle target with
  | ok res =>
    refine addAssets_inv _ _ (register_inv res.links _ ?_)
    exact updateTwice_inv s target .scanned _ rfl rfl _ h
  | err m =>
    exact updateTwice_inv s target .failed {} rfl rfl _ h

theorem applyScans_inv (oracle : ScanOracle) (urls : List String) :
    ∀ (s : AppState), MachineInv s → MachineInv (applyScans oracle s urls) := by
  induction urls with
  | nil => intro s h; exact h
  | cons a rest ih =>
    intro s h
    exact ih (scanOne s oracle a) (scanOne_inv oracle a s h)

theorem fullScanLoop_inv (oracle : ScanOracle) (stop : Nat → Bool) :
    ∀ (urls : List String) (s : AppState) (i : Nat), MachineInv s →
      MachineInv (fullScanLoop oracle stop urls s i) := by
  intro urls
  induction urls with
  | nil => intro s i h; exact h
  | cons a rest ih =>
    intro s i h
    unfold fullScanLoop
    split
    · exact h
    · exact ih (scanOne s oracle a) (i + 1) (scanOne_inv oracle a s h)

theorem handleFullScan_inv (s : AppState) (oracle : ScanOracle) (stop : Nat → Bool)
    (h : MachineInv s) : MachineInv (handleFullScan s oracle stop) :=
  fullScanLoop_inv oracle stop (pendingUrls s) s 0 h

theorem dispatchScanPages_fst (oracle : ScanOracle) :
    ∀ (urls : List String) (s : AppState) (es : List ScanEntry),
      (urls.foldl
        (fun acc url =>
          let r := scanOneEntry acc.1 oracle url
          (r.1, acc.2 ++ [r.2]))
        (s, es)).1 = applyScans oracle s urls := by
  intro urls
  induction urls with
  | nil => intro s es; rfl
  | cons a rest ih =>
    intro s es
    exact ih (scanOne s oracle a) (es ++ [(scanOneEntry s oracle a).2])

theorem dispatchScanPages_state (st : AppState) (oracle : ScanOracle)
    (urls : List String) :
    (dispatchScanPages st oracle urls).1 = applyScans oracle st urls :=
  dispatchScanPages_fst oracle urls st []

theorem dispatch_inv (st : AppState) (approved : Bool) (fc : FunctionCall)
    (collab : Collaborators) (stop : Nat → Bool) (hasChat : Bool)
    (h : MachineInv st) :
    MachineInv (handleFunctionCallResponse st approved fc collab stop hasChat).state := by
  unfold handleFunctionCallResponse
  cases approved with
  | false => exact h
  | true =>
    by_cases h1 : fc.name = "scanPages"
    · simp only [Bool.not_true, h1]
      show MachineInv (dispatchScanPages st collab.scanPage fc.args.urls).1
      rw [dispatchScanPages_state]
      exact applyScans_inv collab.scanPage fc.args.urls st h
    · by_cases h2 : fc.name = "extractDataFromPage"
      · cases hm : mapGet st.links fc.args.url with
        | none => simp [h1, h2, hm]; exact h
        | some l =>
          by_cases hc : (l.status == LinkStatus.scanned && truthyStr l.htmlContent) = true
          · simp [h1, h2, hm, hc]; exact h
          · simp [h1, h2, hm, hc]; exact h
      · by_cases h3 : fc.name = "performSeoAnalysis"
        · cases hm : mapGet st.links fc.args.url with
          | none => simp [h1, h2, h3, hm]; exact h
          | some l =>
            by_cases hc : (l.status == LinkStatus.scanned && truthyStr l.htmlContent) = true
            · simp [h1, h2, h3, hm, hc]; exact h
            · simp [h1, h2, h3, hm, hc]; exact h
        · by_cases h4 : fc.name = "analyzeImageFromUrl"
          · cases hi : collab.fetchAndEncodeImage fc.args.url with
            | ok bm => simp [h1, h2, h3, h4, hi]; exact h
            | error msg => simp [h1, h2, h3, h4, hi]; exact h
          · by_cases h5 : fc.name = "scanAllPendingPages"
            · simp [h1, h2, h3, h4, h5]
              exact handleFullScan_inv st collab.scanPage stop h
            · simp [h1, h2, h3, h4, h5]
              exact h

theorem initialScan_inv (url : String) (oracle : ScanOracle) (s : AppState)
    (h : MachineInv s) : MachineInv (handleInitialScan s url oracle) := by
  unfold handleInitialScan
  cases ho : oracle url with
  | err msg => exact h
  | ok r =>
    have hinner : MachineInv
        { s with
          status := AppStatus.scanning
          error := none
          collabLog := s.collabLog ++ [CollabCall.scanPage url]
          links := mapSet [] url
            { url := some url, status := .scanned, title := some r.title
              textContent := some r.textContent, htmlContent := some r.htmlContent }
          events := s.events ++ [{ url := url, prev := none, next := .scanned }] } := by
      constructor
      · refine eventsOK_append _ _ h.1 ?_
        intro e he
        rw [List.mem_singleton] at he
        subst he
        rfl
      · intro u rr hm
        simp only [mapSet, mapGet] at hm
        by_cases hu : url = u
        · rw [if_pos hu] at hm
          have hrr : rr =
              { url := some url, status := .scanned, title := some r.title
                textContent := some r.textContent
                htmlContent := some r.htmlContent } :=
            (Option.some_inj.1 hm).symm
          rw [hrr]
          simp
        · rw [if_neg hu] at hm
          simp [mapGet] at hm
    exact addAssets_inv _ r.assets (register_inv r.links _ hinner)

theorem handleReset_inv (s : AppState) (h : MachineInv s) :
    MachineInv (handleReset s) := by
  constructor
  · exact h.1
  · intro u r hm
    simp [handleReset, mapGet] at hm

theorem runOp_inv (st : AppState) (op : AppOp) (h : MachineInv st) :
    MachineInv (runOp st op) := by
  cases op with
  | initialScan url oracle =>
    simp only [runOp]
    split
    · exact initialScan_inv url oracle st h
    · exact h
  | toolCall approved fc collab stop =>
    simp only [runOp]
    split
    · exact dispatch_inv st approved fc collab stop true h
    · exact h
  | manualScan url collab =>
    simp only [runOp]
    split
    · exact dispatch_inv st true _ collab (fun _ => false) true h
    · exact h
  | fullScan oracle stop =>
    simp only [runOp]
    split
    · exact handleFullScan_inv st oracle stop h
    · exact h
  | reset => exact handleReset_inv st h

theorem runTrace_inv (ops : List AppOp) : ∀ (st : AppState), MachineInv st →
    MachineInv (runTrace st ops) := by
  induction ops with
  | nil => intro st h; exact h
  | cons op rest ih =>
    intro st h
    exact ih (runOp st op) (runOp_inv st op h)

theorem initialState_inv : MachineInv initialState := by
  constructor
  · intro e he
    cases he
  · intro u r hm
    simp [initialState, mapGet] at hm

/-- Claim C3 (amended): across every sequence of operations starting
from the fresh session — initial scan, tool-call dispatch (including
`scanPages` and the bulk scan), manual re-scan, reset — every status
transition of every URL follows
`pending → scanning → {scanned, failed}`, where a `failed` link may
re-enter `scanning` on a deliberate re-scan *and an already-`scanned`
link may likewise re-enter `scanning` on a deliberate re-scan*; a
`scanned → pending` transition never occurs. -/
theorem linkStatus_machine (ops : List AppOp) :
    (∀ e ∈ (runTrace initialState ops).events, implAllowed e.prev e.next = true) ∧
    (∀ e ∈ (runTrace initialState ops).events,
      ¬(e.prev = some .scanned ∧ e.next = .pending)) := by
  have hinv := runTrace_inv ops initialState initialState_inv
  refine ⟨hinv.1, ?_⟩
  intro e he hcontra
  have hall := hinv.1 e he
  rw [hcontra.1, hcontra.2] at hall
  simp [implAllowed, specAllowed] at hall

/-- Trace exhibiting a deliberate re-scan of an already scanned page:
seed scan of `A`, then a manual Asset Explorer re-scan of `A`. -/
def demoTrace : List AppOp :=
  [.initialScan "https://site.example/a" okOracle,
   .manualScan "https://site.example/a" demoCollab]

theorem linkStatus_machine_witness :
    implAllowed (some .scanned) .scanning = true :=
  (linkStatus_machine demoTrace).1
    { url := "https://site.example/a", prev := some .scanned, next := .scanning }
    (by decide)

/-- Counterexample to claim C3 as stated: the specification's
transition relation (only a `failed` link may re-enter `scanning`) is
violated by the manual re-scan of a `scanned` URL, which logs a
`scanned → scanning` write. -/
theorem linkStatus_machine_cex :
    ((runTrace initialState demoTrace).events.all
      (fun e => specAllowed e.prev e.next)) = false := by
  decide
